import Mathlib

/-!
Shallow embedding of `juce_ComponentBuilder.cpp` (the declarative-tree to
component-instance synchronizer) and proofs about the claims of its
specification.

Modelling conventions:
* `ValueTree` nodes become `VT`: a type tag, a property list and an ordered
  child list.  `state [ComponentBuilder::idProperty].toString()` becomes a
  lookup of the `"id"` key, defaulting to `""` (a missing `var` converts to
  the empty string).
* A live `Component` becomes `CompTree`: an identity token (standing for the
  object's address), its component ID string, and its ordered child list.
  The child list is kept back-to-front: index 0 is the backmost child and the
  last entry is the frontmost, matching the paint order of the child array.
* `OwnedArray<Component>` pools and child arrays become `List CompTree`.
* The pure-virtual `TypeHandler::addNewComponentFromState` is an external
  collaborator; it is passed in as a function argument.  It returns
  `Option CompTree` because the C++ returns a pointer that is asserted
  (not guaranteed) to be non-null.
* `jassert` is a debug-only diagnostic: release builds continue.  Functions
  whose observable behaviour includes an assertion report a `Bool` flag for
  whether the asserted precondition held, alongside the state change the
  code performs regardless.
-/

namespace JuceBuilder

/-- A `ValueTree` node: type tag, named string properties, ordered children. -/
inductive VT where
  | node (typ : String) (props : List (String × String)) (children : List VT)

def VT.typ : VT → String
  | .node t _ _ => t

def VT.props : VT → List (String × String)
  | .node _ p _ => p

def VT.children : VT → List VT
  | .node _ _ c => c

/-- Model of `ComponentBuilder::idProperty`: it is the identifier `"id"`. -/
def idProperty : String := "id"

/-- Model of `state [prop].toString()`: property lookup, `""` when absent. -/
def getPropertyString (state : VT) (key : String) : String :=
  match state.props.find? (fun p => p.1 == key) with
  | some p => p.2
  | none => ""

/-- Model of `ComponentBuilderHelpers::getStateId`: reads the node's `"id"` property. -/
def getStateId (state : VT) : String :=
  getPropertyString state idProperty

/-- A `ComponentBuilder::TypeHandler`: an identity token (its address), its
value-tree type tag, and its back-reference to the owning builder (a builder
is represented by its identity token). -/
structure TypeHandler where
  hid : Nat
  type : String
  builder : Option Nat
deriving DecidableEq

/-- Model of `ComponentBuilder::getHandlerForState`: scan the registered handlers in
registration order and return the first whose type tag matches the node's. -/
def getHandlerForState (types : List TypeHandler) (s : VT) : Option TypeHandler :=
  types.find? (fun t => t.type == s.typ)

/-- A live `Component` as seen by the child-reconciliation pass, which treats
the members of a parent's child list opaquely: an identity token (standing for
the object's address) and its component ID.  The hierarchical view of the same
objects, needed by the recursive ID search, is `CompTree` below. -/
structure Comp where
  ident : Nat
  cid : String
deriving DecidableEq

/-- Model of `Component::setComponentID`. -/
def Comp.withID (c : Comp) (s : String) : Comp :=
  { c with cid := s }

/-- A live `Component` with its ordered child subtree (index 0 = backmost,
last = frontmost), for the recursive search `findComponentWithID`. -/
inductive CompTree where
  | node (ident : Nat) (cid : String) (children : List CompTree)

def CompTree.ident : CompTree → Nat
  | .node i _ _ => i

def CompTree.cid : CompTree → String
  | .node _ c _ => c

def CompTree.children : CompTree → List CompTree
  | .node _ _ c => c

/-- Model of `ComponentBuilderHelpers::removeComponentWithID`: scan the pool from the
highest index downwards; at the first component whose ID matches, remove it
from the pool and return it together with the remaining pool.  Returns `none`
(pool untouched) if nothing matches.  The downward scan makes this the LAST
match in pool order. -/
def removeComponentWithID : List Comp → String → Option (Comp × List Comp)
  | [], _ => none
  | c :: cs, compId =>
    match removeComponentWithID cs compId with
    | some (r, cs') => some (r, c :: cs')
    | none => if c.cid == compId then some (c, cs) else none

mutual

/-- Model of `ComponentBuilderHelpers::findComponentWithID`: pre-order search; the
component itself first, then its children in order. -/
def findComponentWithID : CompTree → String → Option CompTree
  | .node i cid children, compId =>
    if cid == compId then some (.node i cid children)
    else findComponentWithIDList children compId

/-- The child loop of `findComponentWithID`. -/
def findComponentWithIDList : List CompTree → String → Option CompTree
  | [], _ => none
  | ch :: rest, compId =>
    match findComponentWithID ch compId with
    | some found => some found
    | none => findComponentWithIDList rest compId

end

mutual

/-- Depth of a component tree (used to bound the recursion of
`findComponentWithID`). -/
def CompTree.height : CompTree → Nat
  | .node _ _ children => CompTree.heightList children + 1

/-- Maximum depth over a child list. -/
def CompTree.heightList : List CompTree → Nat
  | [] => 0
  | c :: cs => max (CompTree.height c) (CompTree.heightList cs)

end

mutual

/-- Fuel-bounded variant of `findComponentWithID`: each descent into a child
list consumes one unit of fuel. -/
def findComponentWithIDFuel : Nat → CompTree → String → Option CompTree
  | 0, _, _ => none
  | fuel + 1, .node i cid children, compId =>
    if cid == compId then some (.node i cid children)
    else findComponentWithIDListFuel fuel children compId
termination_by fuel _ _ => (fuel, 0)

/-- Fuel-bounded variant of the child loop of `findComponentWithID`. -/
def findComponentWithIDListFuel : Nat → List CompTree → String → Option CompTree
  | _, [], _ => none
  | fuel, ch :: rest, compId =>
    match findComponentWithIDFuel fuel ch compId with
    | some found => some found
    | none => findComponentWithIDListFuel fuel rest compId
termination_by fuel l _ => (fuel, l.length + 1)

end

/-- Model of `Component::setComponentID` on the hierarchical view. -/
def CompTree.withID : CompTree → String → CompTree
  | .node i _ ch, s => .node i s ch

/-- A created instance together with the parent it was attached to, used to
state the contract of `createNewComponent` (the C++ asserts
`c->getParentComponent() == parent`). -/
structure CompInst where
  ident : Nat
  cid : String
  parentIdent : Option Nat
deriving DecidableEq

/-- Model of `Component::setComponentID` on `CompInst` (the ID is the only field it
touches). -/
def CompInst.withID (c : CompInst) (s : String) : CompInst :=
  { c with cid := s }

/-- Model of `ComponentBuilderHelpers::createNewComponent`: invoke the handler's
pure-virtual `addNewComponentFromState` (passed in as `addNew`, returning
`none` for a null pointer), then assign the new instance's component ID from
the state node's id property.  Generic in the component representation `γ`
so that the same helper serves the root-creation path (`CompTree`), the
child-reconciliation path (`Comp`) and the parent-recording view
(`CompInst`). -/
def createNewComponent {γ : Type} (withID : γ → String → γ)
    (addNew : VT → Option Nat → Option γ) (state : VT) (parent : Option Nat) :
    Option γ :=
  (addNew state parent).map fun c => withID c (getStateId state)

/-- The `ComponentBuilder` object: its identity token, the registered
handlers in registration order, the observed state tree, and the lazily
created managed root component. -/
structure Builder where
  bid : Nat
  types : List TypeHandler
  state : VT
  component : Option CompTree

/-- Model of `ComponentBuilder::registerTypeHandler`.  The two `jassert`s demand a
non-null handler whose `builder` back-reference is still null; the returned
flag records whether they held.  For a non-null handler the release build
appends it to `types` and sets its back-reference regardless of the second
assertion.  (For a null handler the release build would dereference null; the
model leaves the builder unchanged.) -/
def registerTypeHandler (b : Builder) (t? : Option TypeHandler) : Builder × Bool :=
  match t? with
  | none => (b, false)
  | some t =>
    ({ b with types := b.types ++ [{ t with builder := some b.bid }] },
     t.builder == none)

/-- Model of `ComponentBuilder::getNumHandlers`. -/
def getNumHandlers (b : Builder) : Nat :=
  b.types.length

/-- Model of `ComponentBuilder::createComponent`: find the handler matching the root
state's type and create the root from it (with a null parent); with no
matching handler (`jassertfalse`) return null. -/
def createComponent (addNew : TypeHandler → VT → Option Nat → Option CompTree)
    (b : Builder) : Option CompTree :=
  match getHandlerForState b.types b.state with
  | some t => createNewComponent CompTree.withID (addNew t) b.state none
  | none => none

/-- Model of `ComponentBuilder::getManagedComponent`: if the managed component has not
been created yet, create it now (storing the result, even when creation
yields null); return the stored component. -/
def getManagedComponent (addNew : TypeHandler → VT → Option Nat → Option CompTree)
    (b : Builder) : Builder × Option CompTree :=
  match b.component with
  | some c => (b, some c)
  | none =>
    let c := createComponent addNew b
    ({ b with component := c }, c)

/-- The observable effect of one `updateComponentFromState` invocation: which
handler type was dispatched, the uid that was looked up, and the identity of
the live component the update was applied to. -/
structure UpdAction where
  handlerType : String
  uid : String
  targetIdent : Nat
deriving DecidableEq

/-- The mapped branch of `ComponentBuilderHelpers::updateComponent`: the node
has a handler, so look up the live component carrying the node's uid under
the top-level component and invoke the handler's update on it. -/
def applyUpdateAt (types : List TypeHandler) (top : CompTree) (s : VT) :
    Option UpdAction :=
  match getHandlerForState types s with
  | some t =>
    (findComponentWithID top (getStateId s)).map fun c =>
      { handlerType := t.type, uid := getStateId s, targetIdent := c.ident }
  | none => none

/-- The recursive walk of `ComponentBuilderHelpers::updateComponent` once the
top-level component exists.  A state node is represented together with its
ancestor chain (`anc`: immediate parent first); `state.getParent().isValid()`
becomes `anc ≠ []`.  If the node has no handler or an empty uid, the walk
moves to the parent; otherwise the update is applied at this node. -/
def updateComponentWalk (types : List TypeHandler) (top : CompTree) :
    VT → List VT → Option UpdAction
  | s, [] =>
    if (getHandlerForState types s).isNone || getStateId s == "" then none
    else applyUpdateAt types top s
  | s, parent :: rest =>
    if (getHandlerForState types s).isNone || getStateId s == "" then
      updateComponentWalk types top parent rest
    else applyUpdateAt types top s

/-- Fuel-bounded variant of `updateComponentWalk`. -/
def updateComponentWalkFuel (types : List TypeHandler) (top : CompTree) :
    Nat → VT → List VT → Option UpdAction
  | 0, _, _ => none
  | _ + 1, s, [] =>
    if (getHandlerForState types s).isNone || getStateId s == "" then none
    else applyUpdateAt types top s
  | fuel + 1, s, parent :: rest =>
    if (getHandlerForState types s).isNone || getStateId s == "" then
      updateComponentWalkFuel types top fuel parent rest
    else applyUpdateAt types top s

/-- Model of `ComponentBuilderHelpers::updateComponent`: obtain the managed top-level
component (which creates it lazily if it does not exist yet) and, when one
exists, run the ancestor walk from the changed node.  The C++ recursion
re-enters `updateComponent` at the parent node, where `getManagedComponent`
then returns the already-cached root, so walking with the fixed root is the
same computation. -/
def updateComponent (addNew : TypeHandler → VT → Option Nat → Option CompTree)
    (b : Builder) (s : VT) (anc : List VT) : Builder × Option UpdAction :=
  match getManagedComponent addNew b with
  | (b', some topLevelComp) => (b', updateComponentWalk b'.types topLevelComp s anc)
  | (b', none) => (b', none)

/-- Model of `ComponentBuilder::valueTreePropertyChanged` (and the other four mutation
callbacks, which all have the same body): delegate to
`ComponentBuilderHelpers::updateComponent` on the changed node. -/
def valueTreePropertyChanged (addNew : TypeHandler → VT → Option Nat → Option CompTree)
    (b : Builder) (tree : VT) (anc : List VT) : Builder × Option UpdAction :=
  updateComponent addNew b tree anc

/-- One z-order operation of the final pass of `updateChildComponents`:
a `toFront` call or a `toBehind` call. -/
inductive ZOp where
  | toFront (c : Comp)
  | toBehind (c target : Comp)
deriving DecidableEq

/-- Modelled from the spec: `Component::toFront` (the live-instance platform
operation "raise-to-front", whose implementation is outside this excerpt)
moves the component to the frontmost position of the child list. -/
def toFrontOp (l : List Comp) (c : Comp) : List Comp :=
  l.erase c ++ [c]

/-- Insert `c` immediately before the first occurrence of `target` (no-op
when `target` is absent, which the reconciliation pass never produces). -/
def insertBehind : List Comp → Comp → Comp → List Comp
  | [], _, _ => []
  | x :: xs, target, c =>
    if x = target then c :: x :: xs else x :: insertBehind xs target c

/-- Modelled from the spec: `Component::toBehind` (the live-instance platform
operation "move-behind(sibling)", whose implementation is outside this
excerpt) places the component immediately behind its sibling, i.e.
immediately before it in the back-to-front child list. -/
def toBehindOp (l : List Comp) (c target : Comp) : List Comp :=
  insertBehind (l.erase c) target c

/-- The `toBehind` loop of the z-order pass: for `i` from `size - 2` down to
`0`, place `componentsInOrder[i]` immediately behind
`componentsInOrder[i+1]`.  The recursion applies the pair at the head last,
matching the descending loop. -/
def behindPass : List Comp → List Comp → List Comp
  | c1 :: c2 :: rest, l => toBehindOp (behindPass (c2 :: rest) l) c1 c2
  | _, l => l

/-- The z-order pass at the end of `updateChildComponents`, acting on the
parent's child list `l`: nothing for an empty result list; otherwise bring
the last result component to the front, then run the `toBehind` loop. -/
def zOrderPass (comps l : List Comp) : List Comp :=
  match comps.getLast? with
  | none => l
  | some lastC => behindPass comps (toFrontOp l lastC)

/-- Consecutive pairs of a list. -/
def consecPairs : List Comp → List (Comp × Comp)
  | a :: b :: rest => (a, b) :: consecPairs (b :: rest)
  | _ => []

/-- The z-order operations issued by the pass, in program order: nothing for
an empty result list; otherwise one `toFront` on the last component followed
by the `toBehind` calls for consecutive pairs, last pair first. -/
def zOrderTrace (comps : List Comp) : List ZOp :=
  match comps.getLast? with
  | none => []
  | some lastC =>
    ZOp.toFront lastC :: ((consecPairs comps).reverse.map fun p => ZOp.toBehind p.1 p.2)

/-- The loop state of `updateChildComponents`: the pool of existing children
not yet matched (`existingComponents`), the result list
(`componentsInOrder`), the instances created so far, and the next fresh
identity token for a creation. -/
structure RState where
  pool : List Comp
  inOrder : List Comp
  created : List Comp
  nextIdent : Nat
deriving DecidableEq

/-- One iteration of the child loop of `updateChildComponents` on child state
`childState`: try to claim the matching pool member; failing that, create a
new instance if a handler for the node's type exists (`jassertfalse` and skip
the node otherwise); a null component contributes nothing to the result
list. -/
def reconcileStep (types : List TypeHandler)
    (addNew : TypeHandler → Nat → VT → Option Nat → Option Comp)
    (parentIdent : Nat) (st : RState) (childState : VT) : RState :=
  match removeComponentWithID st.pool (getStateId childState) with
  | some (c, pool') => { st with pool := pool', inOrder := st.inOrder ++ [c] }
  | none =>
    match getHandlerForState types childState with
    | some t =>
      match createNewComponent Comp.withID (addNew t st.nextIdent) childState
          (some parentIdent) with
      | some c =>
        { st with inOrder := st.inOrder ++ [c], created := st.created ++ [c],
                  nextIdent := st.nextIdent + 1 }
      | none => st
    | none => st

/-- The observable outcome of `ComponentBuilder::updateChildComponents`. -/
structure ReconcileOut where
  inOrder : List Comp
  destroyed : List Comp
  created : List Comp
  finalChildren : List Comp
  zTrace : List ZOp
deriving DecidableEq

/-- Model of `ComponentBuilder::updateChildComponents`.  `existing` is the parent's
current child list (back-to-front), `children` the state node whose child
nodes are the new child states, `parentIdent` the parent's identity token and
`nextIdent` the next fresh identity for created instances.  The fold is the
child loop; the pool members it leaves unclaimed are destroyed when
`existingComponents` goes out of scope; the surviving children (survivors in
their old relative order, then the created instances, which the handlers
attach at the front) then get the z-order pass imposed on them. -/
def updateChildComponents (types : List TypeHandler)
    (addNew : TypeHandler → Nat → VT → Option Nat → Option Comp)
    (parentIdent : Nat) (existing : List Comp) (children : VT)
    (nextIdent : Nat) : ReconcileOut :=
  let st := children.children.foldl (reconcileStep types addNew parentIdent)
    ⟨existing, [], [], nextIdent⟩
  let preZ := existing.filter (fun c => decide (c ∉ st.pool)) ++ st.created
  { inOrder := st.inOrder, destroyed := st.pool, created := st.created,
    finalChildren := zOrderPass st.inOrder preZ, zTrace := zOrderTrace st.inOrder }

/-- Erase each element of `s` (one occurrence each) from `l`; proof
infrastructure for reasoning about the z-order pass. -/
def eraseAll (l s : List Comp) : List Comp :=
  s.foldl List.erase l

/-! ### Lemmas about `removeComponentWithID` -/

theorem removeComponentWithID_eq_none_iff (pool : List Comp) (i : String) :
    removeComponentWithID pool i = none ↔ ∀ c ∈ pool, c.cid ≠ i := by
  induction pool with
  | nil => simp [removeComponentWithID]
  | cons c cs ih =>
    simp only [removeComponentWithID]
    cases h : removeComponentWithID cs i with
    | some r =>
      simp only [List.mem_cons]
      constructor
      · intro hc; cases hc
      · intro hall
        have : removeComponentWithID cs i = none :=
          ih.mpr fun x hx => hall x (Or.inr hx)
        rw [h] at this; cases this
    | none =>
      rw [h] at ih
      by_cases hcid : c.cid = i
      · simp [hcid]
      · simp only [hcid, not_false_iff, List.mem_cons]
        have : (c.cid == i) = false := by simp [hcid]
        simp only [this, Bool.false_eq_true, if_false]
        constructor
        · rintro - x hx
          rcases hx with rfl | hx
          · exact hcid
          · exact ih.mp rfl x hx
        · intro _; trivial

theorem removeComponentWithID_some_inv {pool pool' : List Comp} {i : String}
    {c : Comp} (h : removeComponentWithID pool i = some (c, pool')) :
    ∃ xs ys, pool = xs ++ c :: ys ∧ pool' = xs ++ ys ∧ c.cid = i ∧
      ∀ y ∈ ys, y.cid ≠ i := by
  induction pool generalizing pool' with
  | nil => simp [removeComponentWithID] at h
  | cons d ds ih =>
    simp only [removeComponentWithID] at h
    cases h2 : removeComponentWithID ds i with
    | some r =>
      obtain ⟨r1, r2⟩ := r
      rw [h2] at h
      simp only [Option.some.injEq, Prod.mk.injEq] at h
      obtain ⟨hc, hp⟩ := h
      subst hc
      obtain ⟨xs, ys, hds, hds', hcid, hys⟩ := ih h2
      exact ⟨d :: xs, ys, by simp [hds], by simp [← hp, hds'], hcid, hys⟩
    | none =>
      rw [h2] at h
      by_cases hcid : c.cid = i
      · by_cases hd : d.cid = i
        · simp only [hd, beq_self_eq_true, if_true, Option.some.injEq,
            Prod.mk.injEq] at h
          obtain ⟨hc, hp⟩ := h
          refine ⟨[], ds, by simp [hc], by simp [hp], by rw [← hc]; exact hd, ?_⟩
          exact (removeComponentWithID_eq_none_iff ds i).mp h2
        · have : (d.cid == i) = false := by simp [hd]
          simp [this] at h
      · by_cases hd : d.cid = i
        · simp only [hd, beq_self_eq_true, if_true, Option.some.injEq,
            Prod.mk.injEq] at h
          exact absurd (by rw [← h.1]; exact hd) hcid
        · have : (d.cid == i) = false := by simp [hd]
          simp [this] at h

theorem removeComponentWithID_last_match {xs ys : List Comp} {c : Comp}
    {i : String} (hc : c.cid = i) (hys : ∀ y ∈ ys, y.cid ≠ i) :
    removeComponentWithID (xs ++ c :: ys) i = some (c, xs ++ ys) := by
  induction xs with
  | nil =>
    simp only [List.nil_append, removeComponentWithID]
    rw [(removeComponentWithID_eq_none_iff ys i).mpr hys]
    simp [hc]
  | cons x xs ih =>
    simp only [List.cons_append, removeComponentWithID, List.append_eq]
    rw [ih]

theorem removeComponentWithID_some_perm {pool pool' : List Comp} {i : String}
    {c : Comp} (h : removeComponentWithID pool i = some (c, pool')) :
    c.cid = i ∧ pool.Perm (c :: pool') ∧ ∀ x ∈ pool', x ∈ pool := by
  obtain ⟨xs, ys, hp, hp', hcid, _⟩ := removeComponentWithID_some_inv h
  subst hp hp'
  refine ⟨hcid, List.perm_middle, fun x hx => ?_⟩
  rcases List.mem_append.mp hx with h1 | h1
  · exact List.mem_append.mpr (Or.inl h1)
  · exact List.mem_append.mpr (Or.inr (List.mem_cons_of_mem _ h1))

theorem removeComponentWithID_of_mem_cid {pool : List Comp} {i : String}
    (h : i ∈ pool.map Comp.cid) :
    ∃ c pool', removeComponentWithID pool i = some (c, pool') ∧ c.cid = i ∧
      pool.Perm (c :: pool') := by
  cases hr : removeComponentWithID pool i with
  | none =>
    obtain ⟨c, hc, hcid⟩ := List.mem_map.mp h
    exact absurd hcid ((removeComponentWithID_eq_none_iff pool i).mp hr c hc)
  | some r =>
    obtain ⟨c, pool'⟩ := r
    obtain ⟨hcid, hperm, _⟩ := removeComponentWithID_some_perm hr
    exact ⟨c, pool', rfl, hcid, hperm⟩

/-- Claim C6: `removeComponentWithID` scans the pool from the highest index
down, so when several pool members share the requested identifier it removes
and returns the one with the highest index (the last match in pool order); a
consumed entry is taken out of the returned pool, so under a duplicate-free
pool the returned component is no longer available for a later lookup
(consumed at most once); and with no matching member it returns `none`,
leaving the pool untouched. -/
theorem removeComponentWithID_spec :
    (∀ (xs ys : List Comp) (c : Comp) (i : String), c.cid = i →
      (∀ y ∈ ys, y.cid ≠ i) →
      removeComponentWithID (xs ++ c :: ys) i = some (c, xs ++ ys)) ∧
    (∀ (pool pool' : List Comp) (c : Comp) (i : String), pool.Nodup →
      removeComponentWithID pool i = some (c, pool') → c ∉ pool') ∧
    (∀ (pool : List Comp) (i : String), (∀ x ∈ pool, x.cid ≠ i) →
      removeComponentWithID pool i = none) := by
  refine ⟨fun xs ys c i hc hys => removeComponentWithID_last_match hc hys,
    fun pool pool' c i hnd h => ?_,
    fun pool i h => (removeComponentWithID_eq_none_iff pool i).mpr h⟩
  obtain ⟨xs, ys, hp, hp', _, _⟩ := removeComponentWithID_some_inv h
  subst hp hp'
  obtain ⟨_, hys, hdisj⟩ := List.nodup_append.mp hnd
  intro hmem
  rcases List.mem_append.mp hmem with h1 | h1
  · exact hdisj h1 (List.mem_cons_self c ys)
  · exact (List.nodup_cons.mp hys).1 h1

/-- Witness for C6 at a concrete pool with a duplicate identifier. -/
theorem removeComponentWithID_spec_witness :
    removeComponentWithID [⟨0, "a"⟩, ⟨1, "b"⟩, ⟨2, "a"⟩] "a"
      = some (⟨2, "a"⟩, [⟨0, "a"⟩, ⟨1, "b"⟩]) ∧
    ((⟨2, "a"⟩ : Comp) ∉ ([⟨0, "a"⟩, ⟨1, "b"⟩] : List Comp)) ∧
    removeComponentWithID [⟨0, "a"⟩, ⟨1, "b"⟩] "z" = none := by
  refine ⟨?_, ?_, ?_⟩
  · exact removeComponentWithID_spec.1 [⟨0, "a"⟩, ⟨1, "b"⟩] [] ⟨2, "a"⟩ "a"
      (by decide) (by decide)
  · exact removeComponentWithID_spec.2.1 [⟨0, "a"⟩, ⟨1, "b"⟩, ⟨2, "a"⟩] _ _ "a"
      (by decide) (removeComponentWithID_spec.1 [⟨0, "a"⟩, ⟨1, "b"⟩] [] ⟨2, "a"⟩
        "a" (by decide) (by decide))
  · exact removeComponentWithID_spec.2.2 [⟨0, "a"⟩, ⟨1, "b"⟩] "z" (by decide)

/-! ### Lemmas about the z-order pass -/

theorem eraseAll_nil (l : List Comp) : eraseAll l [] = l := rfl

theorem eraseAll_cons (l : List Comp) (a : Comp) (s : List Comp) :
    eraseAll l (a :: s) = eraseAll (l.erase a) s := rfl

theorem eraseAll_erase_comm (s : List Comp) (l : List Comp) (a : Comp) :
    (eraseAll l s).erase a = eraseAll (l.erase a) s := by
  induction s generalizing l with
  | nil => rfl
  | cons b s ih =>
    rw [eraseAll_cons, eraseAll_cons, ih, List.erase_comm]

theorem mem_eraseAll {l : List Comp} (s : List Comp) (hl : l.Nodup) (a : Comp) :
    a ∈ eraseAll l s ↔ a ∈ l ∧ a ∉ s := by
  induction s generalizing l with
  | nil => simp [eraseAll_nil]
  | cons b s ih =>
    rw [eraseAll_cons, ih (hl.erase b), hl.mem_erase_iff]
    simp only [List.mem_cons]
    constructor
    · rintro ⟨⟨hab, hal⟩, has⟩
      exact ⟨hal, by rintro (rfl | h) <;> [exact hab rfl; exact has h]⟩
    · rintro ⟨hal, hns⟩
      exact ⟨⟨fun hab => hns (Or.inl hab), hal⟩, fun h => hns (Or.inr h)⟩

theorem nodup_eraseAll (s : List Comp) {l : List Comp} (hl : l.Nodup) :
    (eraseAll l s).Nodup := by
  induction s generalizing l with
  | nil => exact hl
  | cons b s ih => exact ih (hl.erase b)

theorem insertBehind_append {A : List Comp} (B : List Comp) {target : Comp}
    (c : Comp) (h : target ∉ A) :
    insertBehind (A ++ target :: B) target c = A ++ c :: target :: B := by
  induction A with
  | nil => simp [insertBehind]
  | cons x xs ih =>
    have hx : x ≠ target := fun he => h (he ▸ List.mem_cons_self x xs)
    simp only [List.cons_append, insertBehind, if_neg hx, List.append_eq]
    rw [ih (fun hm => h (List.mem_cons_of_mem x hm))]

/-- Invariant of the `toBehind` loop: once the last result component sits at
the very end of the child list, processing the result list `s` back-to-front
rebuilds it as a contiguous block at the end, leaving the other children in
front of it (at the back) in their prior relative order. -/
theorem behindPass_spec : ∀ (s l : List Comp), s.Nodup → l.Nodup →
    (∀ x ∈ s, x ∈ l) → s.getLast? = l.getLast? →
    behindPass s l = eraseAll l s ++ s := by
  intro s
  induction s with
  | nil => intro l _ _ _ _; simp [behindPass, eraseAll_nil]
  | cons c1 tail ih =>
    intro l hs hl hsub hlast
    match tail, ih with
    | [], _ =>
      obtain ⟨l', rfl⟩ := List.getLast?_eq_some_iff.mp
        (show l.getLast? = some c1 from by
          simpa using hlast.symm)
      have hc1 : c1 ∉ l' := by
        have := List.nodup_append.mp hl
        exact fun hm => this.2.2 hm (List.mem_cons_self c1 [])
      simp only [behindPass, eraseAll_cons, eraseAll_nil]
      rw [List.erase_append_right _ hc1]
      simp [List.erase_cons_head]
    | c2 :: rest, ih =>
      have htail : (c2 :: rest).getLast? = l.getLast? := by
        rw [← hlast, List.getLast?_cons_cons]
      have hsubt : ∀ x ∈ c2 :: rest, x ∈ l := fun x hx =>
        hsub x (List.mem_cons_of_mem c1 hx)
      have hE := ih l (List.nodup_cons.mp hs).2 hl hsubt htail
      have hc1nt : c1 ∉ c2 :: rest := (List.nodup_cons.mp hs).1
      have hc1E : c1 ∈ eraseAll l (c2 :: rest) :=
        (mem_eraseAll _ hl c1).mpr ⟨hsub c1 (List.mem_cons_self _ _), hc1nt⟩
      have hc2E : c2 ∉ eraseAll l (c2 :: rest) := fun hm =>
        ((mem_eraseAll _ hl c2).mp hm).2 (List.mem_cons_self _ _)
      show toBehindOp (behindPass (c2 :: rest) l) c1 c2 = _
      rw [hE]
      unfold toBehindOp
      rw [List.erase_append_left _ hc1E,
        insertBehind_append rest c1
          (fun hm => hc2E (List.mem_of_mem_erase hm)),
        eraseAll_erase_comm]
      rfl

/-- Claim C2: The final z-order pass of `updateChildComponents`: for every
non-empty result list (`componentsInOrder`, here `comps`) and every prior
stacking order `l` of exactly those surviving instances, the pass (raise the
last element to the front, then place each preceding element immediately
behind its successor) rewrites the parent's back-to-front child list to equal
the result list exactly.  Since the result list follows the new-state order,
the front-to-back stacking afterwards matches the new order: for any X before
Y in the new order, X ends up behind Y, regardless of the prior stacking. -/
theorem zOrderPass_matches_new_order (comps l : List Comp) (hne : comps ≠ [])
    (hnd : comps.Nodup) (hperm : l.Perm comps) :
    zOrderPass comps l = comps := by
  obtain ⟨lastC, hlast⟩ : ∃ lastC, comps.getLast? = some lastC := by
    cases h : comps.getLast? with
    | none => exact absurd (List.getLast?_eq_none_iff.mp h) hne
    | some a => exact ⟨a, rfl⟩
  have hlnd : l.Nodup := hperm.nodup_iff.mpr hnd
  have hlastl : lastC ∈ l := hperm.mem_iff.mpr (List.mem_of_mem_getLast? hlast)
  have hl1nd : (toFrontOp l lastC).Nodup := by
    unfold toFrontOp
    refine List.nodup_append.mpr ⟨hlnd.erase lastC, List.nodup_singleton _, ?_⟩
    intro a ha hb
    rcases List.mem_singleton.mp hb with rfl
    exact ((hlnd.mem_erase_iff).mp ha).1 rfl
  have hsub : ∀ x ∈ comps, x ∈ toFrontOp l lastC := by
    intro x hx
    unfold toFrontOp
    by_cases hxl : x = lastC
    · exact List.mem_append.mpr (Or.inr (by simp [hxl]))
    · exact List.mem_append.mpr
        (Or.inl ((hlnd.mem_erase_iff).mpr ⟨hxl, hperm.mem_iff.mpr hx⟩))
  have hlast1 : comps.getLast? = (toFrontOp l lastC).getLast? := by
    rw [hlast]; unfold toFrontOp; rw [List.getLast?_concat]
  have hmain := behindPass_spec comps (toFrontOp l lastC) hnd hl1nd hsub hlast1
  have hnil : eraseAll (toFrontOp l lastC) comps = [] := by
    refine List.eq_nil_iff_forall_not_mem.mpr fun a ha => ?_
    obtain ⟨hal, hna⟩ := (mem_eraseAll _ hl1nd a).mp ha
    refine hna ?_
    unfold toFrontOp at hal
    rcases List.mem_append.mp hal with h1 | h1
    · exact hperm.mem_iff.mp (List.mem_of_mem_erase h1)
    · rcases List.mem_singleton.mp h1 with rfl
      exact List.mem_of_mem_getLast? hlast
  unfold zOrderPass
  rw [hlast]
  show behindPass comps (toFrontOp l lastC) = comps
  rw [hmain, hnil, List.nil_append]

/-- Witness for C2: three instances stacked `[c, b, a]` beforehand, new
order `[a, b, c]`. -/
theorem zOrderPass_matches_new_order_witness :
    zOrderPass [⟨0, "a"⟩, ⟨1, "b"⟩, ⟨2, "c"⟩]
        [⟨2, "c"⟩, ⟨1, "b"⟩, ⟨0, "a"⟩]
      = [⟨0, "a"⟩, ⟨1, "b"⟩, ⟨2, "c"⟩] :=
  zOrderPass_matches_new_order _ _ (by decide) (by decide) (by decide)

/-! ### Lemmas about the child-reconciliation loop -/

theorem reconcileStep_pool_subset (types : List TypeHandler)
    (addNew : TypeHandler → Nat → VT → Option Nat → Option Comp)
    (pid : Nat) (st : RState) (ch : VT) :
    ∀ x ∈ (reconcileStep types addNew pid st ch).pool, x ∈ st.pool := by
  intro x hx
  unfold reconcileStep at hx
  split at hx
  · rename_i r c pool' h
    exact (removeComponentWithID_some_perm h).2.2 x hx
  · split at hx
    · split at hx
      · exact hx
      · exact hx
    · exact hx

/-- A child state that matches nothing in the pool and has no registered
handler leaves the loop state untouched. -/
theorem reconcileStep_skip {types : List TypeHandler}
    {addNew : TypeHandler → Nat → VT → Option Nat → Option Comp}
    {pid : Nat} {st : RState} {ch : VT}
    (h1 : removeComponentWithID st.pool (getStateId ch) = none)
    (h2 : getHandlerForState types ch = none) :
    reconcileStep types addNew pid st ch = st := by
  unfold reconcileStep
  rw [h1, h2]

theorem reconcileFold_pool_subset (types : List TypeHandler)
    (addNew : TypeHandler → Nat → VT → Option Nat → Option Comp) (pid : Nat) :
    ∀ (children : List VT) (st : RState),
      ∀ x ∈ (children.foldl (reconcileStep types addNew pid) st).pool,
        x ∈ st.pool := by
  intro children
  induction children with
  | nil => intro st x hx; exact hx
  | cons ch rest ih =>
    intro st x hx
    exact reconcileStep_pool_subset types addNew pid st ch x (ih _ x hx)

/-- The core induction for the permutation case: when the new child states'
identifiers form a permutation of the pool's identifiers, the loop consumes
the whole pool, creates nothing, and appends to the result list exactly a
rearrangement of the pool whose identifiers follow the new order. -/
theorem reconcileFold_perm (types : List TypeHandler)
    (addNew : TypeHandler → Nat → VT → Option Nat → Option Comp) (pid : Nat) :
    ∀ (childStates : List VT) (st : RState),
      (childStates.map getStateId).Perm (st.pool.map Comp.cid) →
      (childStates.foldl (reconcileStep types addNew pid) st).pool = [] ∧
      (childStates.foldl (reconcileStep types addNew pid) st).created = st.created ∧
      ∃ consumed,
        (childStates.foldl (reconcileStep types addNew pid) st).inOrder
          = st.inOrder ++ consumed ∧
        consumed.Perm st.pool ∧
        consumed.map Comp.cid = childStates.map getStateId := by
  intro childStates
  induction childStates with
  | nil =>
    intro st hperm
    have hids : st.pool.map Comp.cid = [] := by
      simpa using (hperm.symm.eq_nil)
    have hpool : st.pool = [] := by
      simpa using hids
    exact ⟨hpool, rfl, [], by simp, by simp [hpool], by simp⟩
  | cons ch rest ih =>
    intro st hperm
    have hmem : getStateId ch ∈ st.pool.map Comp.cid := by
      refine hperm.mem_iff.mp ?_
      simp
    obtain ⟨c, pool', hrem, hcid, hpoolperm⟩ :=
      removeComponentWithID_of_mem_cid hmem
    have hstep : reconcileStep types addNew pid st ch =
        { st with pool := pool', inOrder := st.inOrder ++ [c] } := by
      unfold reconcileStep; rw [hrem]
    have hperm' : (rest.map getStateId).Perm (pool'.map Comp.cid) := by
      have h1 : (getStateId ch :: rest.map getStateId).Perm
          (st.pool.map Comp.cid) := by simpa using hperm
      have h2 : (st.pool.map Comp.cid).Perm
          (getStateId ch :: pool'.map Comp.cid) := by
        have := hpoolperm.map Comp.cid
        simpa [hcid] using this
      exact (h1.trans h2).cons_inv
    obtain ⟨hpool, hcreated, consumed, hinord, hconsperm, hconsmap⟩ :=
      ih { st with pool := pool', inOrder := st.inOrder ++ [c] } hperm'
    rw [List.foldl_cons, hstep]
    refine ⟨hpool, by simpa using hcreated, c :: consumed, ?_, ?_, ?_⟩
    · rw [hinord]; simp
    · exact (hconsperm.cons c).trans hpoolperm.symm
    · simp [hconsmap, hcid]

/-- Claim C1: When every existing child carries a unique non-empty identifier,
every new child state's type has a registered handler, and the new states'
identifiers are a permutation of exactly the existing identifiers,
`updateChildComponents` creates no instance and destroys no instance: the
result list is a permutation of the prior child instances themselves, with
the instance at each position carrying that position's identifier. -/
theorem updateChildComponents_permutation_no_churn (types : List TypeHandler)
    (addNew : TypeHandler → Nat → VT → Option Nat → Option Comp)
    (pid : Nat) (existing : List Comp) (tag : String)
    (props : List (String × String)) (childStates : List VT) (n0 : Nat)
    (_hnd : (existing.map Comp.cid).Nodup)
    (_hne : ∀ c ∈ existing, c.cid ≠ "")
    (hperm : (childStates.map getStateId).Perm (existing.map Comp.cid))
    (_hhandled : ∀ ch ∈ childStates, (getHandlerForState types ch).isSome = true) :
    (updateChildComponents types addNew pid existing
      (.node tag props childStates) n0).created = [] ∧
    (updateChildComponents types addNew pid existing
      (.node tag props childStates) n0).destroyed = [] ∧
    (updateChildComponents types addNew pid existing
      (.node tag props childStates) n0).inOrder.Perm existing ∧
    (updateChildComponents types addNew pid existing
      (.node tag props childStates) n0).inOrder.map Comp.cid
      = childStates.map getStateId := by
  obtain ⟨hpool, hcreated, consumed, hinord, hconsperm, hconsmap⟩ :=
    reconcileFold_perm types addNew pid childStates ⟨existing, [], [], n0⟩ hperm
  refine ⟨hcreated, hpool, ?_, ?_⟩
  · show ((childStates.foldl (reconcileStep types addNew pid)
      ⟨existing, [], [], n0⟩).inOrder).Perm existing
    rw [hinord]; simpa using hconsperm
  · show ((childStates.foldl (reconcileStep types addNew pid)
      ⟨existing, [], [], n0⟩).inOrder).map Comp.cid = childStates.map getStateId
    rw [hinord]; simpa using hconsmap

/-- Witness for C1: two children `a`, `b` reordered to `b`, `a`. -/
theorem updateChildComponents_permutation_no_churn_witness :
    (updateChildComponents [⟨0, "Button", some 0⟩]
      (fun _ k _ _ => some ⟨100 + k, ""⟩) 9 [⟨0, "a"⟩, ⟨1, "b"⟩]
      (.node "P" [] [.node "Button" [("id", "b")] [],
        .node "Button" [("id", "a")] []]) 0).created = [] ∧
    (updateChildComponents [⟨0, "Button", some 0⟩]
      (fun _ k _ _ => some ⟨100 + k, ""⟩) 9 [⟨0, "a"⟩, ⟨1, "b"⟩]
      (.node "P" [] [.node "Button" [("id", "b")] [],
        .node "Button" [("id", "a")] []]) 0).destroyed = [] ∧
    (updateChildComponents [⟨0, "Button", some 0⟩]
      (fun _ k _ _ => some ⟨100 + k, ""⟩) 9 [⟨0, "a"⟩, ⟨1, "b"⟩]
      (.node "P" [] [.node "Button" [("id", "b")] [],
        .node "Button" [("id", "a")] []]) 0).inOrder.Perm
        [⟨0, "a"⟩, ⟨1, "b"⟩] ∧
    (updateChildComponents [⟨0, "Button", some 0⟩]
      (fun _ k _ _ => some ⟨100 + k, ""⟩) 9 [⟨0, "a"⟩, ⟨1, "b"⟩]
      (.node "P" [] [.node "Button" [("id", "b")] [],
        .node "Button" [("id", "a")] []]) 0).inOrder.map Comp.cid
      = [.node "Button" [("id", "b")] [],
         .node "Button" [("id", "a")] []].map getStateId :=
  updateChildComponents_permutation_no_churn _ _ 9 _ "P" [] _ 0
    (by decide) (by decide) (by decide) (by decide)

/-- Claim C5: A new child state whose type has no registered handler and whose
identifier matches no existing child contributes no instance and has no
effect at all: the reconciliation result is exactly the result of running
`updateChildComponents` on the child list with that node deleted — every
sibling is still processed and the unclaimed pool members are still
destroyed. -/
theorem updateChildComponents_skips_unknown_type (types : List TypeHandler)
    (addNew : TypeHandler → Nat → VT → Option Nat → Option Comp)
    (pid : Nat) (existing : List Comp) (tag : String)
    (props : List (String × String)) (pre post : List VT) (bad : VT) (n0 : Nat)
    (hnoh : getHandlerForState types bad = none)
    (hnoid : ∀ c ∈ existing, c.cid ≠ getStateId bad) :
    updateChildComponents types addNew pid existing
        (.node tag props (pre ++ bad :: post)) n0
      = updateChildComponents types addNew pid existing
        (.node tag props (pre ++ post)) n0 := by
  have hskip : reconcileStep types addNew pid
      (pre.foldl (reconcileStep types addNew pid) ⟨existing, [], [], n0⟩) bad
      = pre.foldl (reconcileStep types addNew pid) ⟨existing, [], [], n0⟩ := by
    refine reconcileStep_skip ?_ hnoh
    refine (removeComponentWithID_eq_none_iff _ _).mpr fun c hc => ?_
    exact hnoid c (reconcileFold_pool_subset types addNew pid pre _ c hc)
  have hfold : List.foldl (reconcileStep types addNew pid) ⟨existing, [], [], n0⟩
      (pre ++ bad :: post)
      = List.foldl (reconcileStep types addNew pid) ⟨existing, [], [], n0⟩
      (pre ++ post) := by
    rw [List.foldl_append, List.foldl_append, List.foldl_cons, hskip]
  simp only [updateChildComponents, VT.children, hfold]

/-- Witness for C5 is not needed: see the closed corollary below.  (The
theorem has hypotheses, so a concrete instantiation follows.) -/
theorem updateChildComponents_skips_unknown_type_witness :
    updateChildComponents [⟨0, "Button", some 0⟩]
        (fun _ k _ _ => some ⟨100 + k, ""⟩) 9 [⟨0, "a"⟩, ⟨1, "b"⟩]
        (.node "P" [] [.node "Button" [("id", "a")] [],
          .node "Mystery" [("id", "z")] [],
          .node "Button" [("id", "c")] []]) 50
      = updateChildComponents [⟨0, "Button", some 0⟩]
        (fun _ k _ _ => some ⟨100 + k, ""⟩) 9 [⟨0, "a"⟩, ⟨1, "b"⟩]
        (.node "P" [] [.node "Button" [("id", "a")] [],
          .node "Button" [("id", "c")] []]) 50 :=
  updateChildComponents_skips_unknown_type _ _ 9 _ "P" []
    [.node "Button" [("id", "a")] []] [.node "Button" [("id", "c")] []]
    (.node "Mystery" [("id", "z")] []) 50 (by decide) (by decide)

/-- Claim C7: Reconciling a parent that has existing children against an empty
new-child list destroys every existing child, produces an empty result list
and an empty final child list, and issues no z-order operation at all. -/
theorem updateChildComponents_empty_list (types : List TypeHandler)
    (addNew : TypeHandler → Nat → VT → Option Nat → Option Comp)
    (pid : Nat) (existing : List Comp) (tag : String)
    (props : List (String × String)) (n0 : Nat) (_hne : existing ≠ []) :
    (updateChildComponents types addNew pid existing
      (.node tag props []) n0).destroyed = existing ∧
    (updateChildComponents types addNew pid existing
      (.node tag props []) n0).zTrace = [] ∧
    (updateChildComponents types addNew pid existing
      (.node tag props []) n0).inOrder = [] ∧
    (updateChildComponents types addNew pid existing
      (.node tag props []) n0).finalChildren = [] := by
  refine ⟨rfl, rfl, rfl, ?_⟩
  show zOrderPass [] (existing.filter (fun c => decide (c ∉ existing)) ++ []) = []
  have hfil : existing.filter (fun c => decide (c ∉ existing)) = [] := by
    refine List.filter_eq_nil_iff.mpr fun a ha => ?_
    simp [ha]
  rw [hfil]
  rfl

/-- Witness for C7 at a concrete two-child parent. -/
theorem updateChildComponents_empty_list_witness :
    (updateChildComponents [⟨0, "Button", some 0⟩]
      (fun _ k _ _ => some ⟨100 + k, ""⟩) 9 [⟨0, "a"⟩, ⟨1, "b"⟩]
      (.node "P" [] []) 50).destroyed = [⟨0, "a"⟩, ⟨1, "b"⟩] ∧
    (updateChildComponents [⟨0, "Button", some 0⟩]
      (fun _ k _ _ => some ⟨100 + k, ""⟩) 9 [⟨0, "a"⟩, ⟨1, "b"⟩]
      (.node "P" [] []) 50).zTrace = [] ∧
    (updateChildComponents [⟨0, "Button", some 0⟩]
      (fun _ k _ _ => some ⟨100 + k, ""⟩) 9 [⟨0, "a"⟩, ⟨1, "b"⟩]
      (.node "P" [] []) 50).inOrder = [] ∧
    (updateChildComponents [⟨0, "Button", some 0⟩]
      (fun _ k _ _ => some ⟨100 + k, ""⟩) 9 [⟨0, "a"⟩, ⟨1, "b"⟩]
      (.node "P" [] []) 50).finalChildren = [] :=
  updateChildComponents_empty_list _ _ 9 _ "P" [] 50 (by decide)

/-! ### Lemmas about the update walk and the ID search -/

theorem findComponentWithIDList_nil (i : String) :
    findComponentWithIDList [] i = none := by
  unfold findComponentWithIDList
  rfl

theorem findComponentWithIDFuel_zero (c : CompTree) (i : String) :
    findComponentWithIDFuel 0 c i = none := by
  unfold findComponentWithIDFuel
  rfl

theorem findComponentWithIDListFuel_nil (fuel : Nat) (i : String) :
    findComponentWithIDListFuel fuel [] i = none := by
  unfold findComponentWithIDListFuel
  rfl

/-- Fuel-indexed agreement: with fuel at least the component tree's height
(respectively the child list's height), the fuel-bounded search computes
exactly `findComponentWithID`.  The recursion strictly descends the finite
child hierarchy, so its depth is bounded by the tree height. -/
theorem findComponentWithIDFuel_eq (fuel : Nat) :
    (∀ (c : CompTree) (i : String), CompTree.height c ≤ fuel →
      findComponentWithIDFuel fuel c i = findComponentWithID c i) ∧
    (∀ (l : List CompTree) (i : String), CompTree.heightList l ≤ fuel →
      findComponentWithIDListFuel fuel l i = findComponentWithIDList l i) := by
  induction fuel with
  | zero =>
    constructor
    · intro c i h
      exfalso
      cases c with
      | node id cid children => simp [CompTree.height] at h
    · intro l i h
      cases l with
      | nil => rw [findComponentWithIDListFuel_nil, findComponentWithIDList_nil]
      | cons ch rest =>
        exfalso
        cases ch with
        | node id cid children =>
          simp [CompTree.heightList, CompTree.height] at h
  | succ f ih =>
    have hP : ∀ (c : CompTree) (i : String), CompTree.height c ≤ f + 1 →
        findComponentWithIDFuel (f + 1) c i = findComponentWithID c i := by
      intro c i h
      cases c with
      | node id cid children =>
        unfold findComponentWithIDFuel findComponentWithID
        by_cases hc : (cid == i) = true
        · simp [hc]
        · have hcf : (cid == i) = false := by simpa using hc
          simp only [hcf, Bool.false_eq_true, if_false]
          refine ih.2 children i ?_
          have : CompTree.heightList children + 1 ≤ f + 1 := by
            simpa [CompTree.height] using h
          omega
    refine ⟨hP, ?_⟩
    intro l
    induction l with
    | nil =>
      intro i h
      rw [findComponentWithIDListFuel_nil, findComponentWithIDList_nil]
    | cons ch rest ihl =>
      intro i h
      have hh : max (CompTree.height ch) (CompTree.heightList rest) ≤ f + 1 := by
        simpa [CompTree.heightList] using h
      have h1 : CompTree.height ch ≤ f + 1 :=
        le_trans (le_max_left _ _) hh
      have h2 : CompTree.heightList rest ≤ f + 1 :=
        le_trans (le_max_right _ _) hh
      unfold findComponentWithIDListFuel findComponentWithIDList
      rw [hP ch i h1, ihl i h2]

/-- Fuel-indexed soundness of the search: a found component carries the
requested ID. -/
theorem findComponentWithIDFuel_sound (fuel : Nat) :
    (∀ (c : CompTree) (i : String) (r : CompTree),
      findComponentWithIDFuel fuel c i = some r → r.cid = i) ∧
    (∀ (l : List CompTree) (i : String) (r : CompTree),
      findComponentWithIDListFuel fuel l i = some r → r.cid = i) := by
  induction fuel with
  | zero =>
    constructor
    · intro c i r h
      rw [findComponentWithIDFuel_zero] at h
      cases h
    · intro l
      induction l with
      | nil =>
        intro i r h
        rw [findComponentWithIDListFuel_nil] at h
        cases h
      | cons ch rest ihl =>
        intro i r h
        unfold findComponentWithIDListFuel at h
        rw [findComponentWithIDFuel_zero] at h
        exact ihl i r h
  | succ f ih =>
    have hP : ∀ (c : CompTree) (i : String) (r : CompTree),
        findComponentWithIDFuel (f + 1) c i = some r → r.cid = i := by
      intro c i r h
      cases c with
      | node id cid children =>
        unfold findComponentWithIDFuel at h
        by_cases hc : (cid == i) = true
        · simp only [hc, if_true, Option.some.injEq] at h
          rw [← h]
          simpa [CompTree.cid] using hc
        · have hcf : (cid == i) = false := by simpa using hc
          simp only [hcf, Bool.false_eq_true, if_false] at h
          exact ih.2 children i r h
    refine ⟨hP, ?_⟩
    intro l
    induction l with
    | nil =>
      intro i r h
      rw [findComponentWithIDListFuel_nil] at h
      cases h
    | cons ch rest ihl =>
      intro i r h
      unfold findComponentWithIDListFuel at h
      cases hch : findComponentWithIDFuel (f + 1) ch i with
      | some r0 =>
        rw [hch] at h
        injection h with h
        exact h ▸ hP ch i r0 hch
      | none =>
        rw [hch] at h
        exact ihl i r h

/-- A component found by `findComponentWithID` carries the requested ID. -/
theorem findComponentWithID_sound {c : CompTree} {i : String} {r : CompTree}
    (h : findComponentWithID c i = some r) : r.cid = i := by
  have he := (findComponentWithIDFuel_eq (CompTree.height c)).1 c i (le_refl _)
  refine (findComponentWithIDFuel_sound (CompTree.height c)).1 c i r ?_
  rw [he]
  exact h

/-- A state node that has a handler and a non-empty uid is updated directly:
the walk stops at the node itself whatever its ancestor chain is. -/
theorem updateComponentWalk_mapped (types : List TypeHandler) (top : CompTree)
    (s : VT) (anc : List VT)
    (h : ((getHandlerForState types s).isNone || getStateId s == "") = false) :
    updateComponentWalk types top s anc = applyUpdateAt types top s := by
  cases anc with
  | nil => unfold updateComponentWalk; simp [h]
  | cons p rest => unfold updateComponentWalk; simp [h]

/-- A node with no handler or empty uid hands the walk to its parent
unchanged. -/
theorem updateComponentWalk_unmapped_cons (types : List TypeHandler)
    (top : CompTree) (s p : VT) (rest : List VT)
    (h : ((getHandlerForState types s).isNone || getStateId s == "") = true) :
    updateComponentWalk types top s (p :: rest)
      = updateComponentWalk types top p rest := by
  conv_lhs => unfold updateComponentWalk
  simp [h]

/-- The ancestor chain lemma: from an unmapped node, the walk skips every
unmapped ancestor and lands on the first mapped one. -/
theorem updateComponentWalk_chain (types : List TypeHandler) (top : CompTree) :
    ∀ (skip : List VT) (s a : VT) (rest : List VT),
      ((getHandlerForState types s).isNone || getStateId s == "") = true →
      (∀ x ∈ skip,
        ((getHandlerForState types x).isNone || getStateId x == "") = true) →
      ((getHandlerForState types a).isNone || getStateId a == "") = false →
      updateComponentWalk types top s (skip ++ a :: rest)
        = applyUpdateAt types top a := by
  intro skip
  induction skip with
  | nil =>
    intro s a rest hs _ ha
    rw [List.nil_append, updateComponentWalk_unmapped_cons types top s a rest hs,
      updateComponentWalk_mapped types top a rest ha]
  | cons p skip ih =>
    intro s a rest hs hskip ha
    rw [List.cons_append, updateComponentWalk_unmapped_cons types top s p _ hs]
    exact ih p a rest (hskip p (List.mem_cons_self _ _))
      (fun x hx => hskip x (List.mem_cons_of_mem _ hx)) ha

/-- Claim C4: An update on a node with no handler or an empty id walks upward
and is applied at the nearest ancestor that has both a registered handler and
a non-empty id: the walk's result is exactly the direct update at that
ancestor, so no update is ever invoked for the unmapped node itself.  A node
that has a handler and a non-empty id is updated directly.  Any applied
update targets the live instance found under the root that carries the
updated node's id. -/
theorem updateComponent_nearest_mapped_ancestor (types : List TypeHandler)
    (top : CompTree) :
    (∀ (s a : VT) (skip rest : List VT),
      ((getHandlerForState types s).isNone || getStateId s == "") = true →
      (∀ x ∈ skip,
        ((getHandlerForState types x).isNone || getStateId x == "") = true) →
      ((getHandlerForState types a).isNone || getStateId a == "") = false →
      updateComponentWalk types top s (skip ++ a :: rest)
        = applyUpdateAt types top a) ∧
    (∀ (s : VT) (anc : List VT),
      ((getHandlerForState types s).isNone || getStateId s == "") = false →
      updateComponentWalk types top s anc = applyUpdateAt types top s) ∧
    (∀ (s : VT) (act : UpdAction), applyUpdateAt types top s = some act →
      act.uid = getStateId s ∧
      ∃ r, findComponentWithID top (getStateId s) = some r ∧
        r.ident = act.targetIdent ∧ r.cid = getStateId s) := by
  refine ⟨fun s a skip rest hs hskip ha =>
    updateComponentWalk_chain types top skip s a rest hs hskip ha,
    fun s anc h => updateComponentWalk_mapped types top s anc h,
    fun s act h => ?_⟩
  unfold applyUpdateAt at h
  cases hh : getHandlerForState types s with
  | none => rw [hh] at h; cases h
  | some t =>
    rw [hh] at h
    cases hf : findComponentWithID top (getStateId s) with
    | none => rw [hf] at h; cases h
    | some r =>
      rw [hf] at h
      injection h with h
      subst h
      exact ⟨rfl, r, rfl, rfl, findComponentWithID_sound hf⟩

/-- Witness for C4: a mutation on an id-less grouping node, below an id-less
(but handled) node, finds the "Panel"-handled ancestor with id "root". -/
theorem updateComponent_nearest_mapped_ancestor_witness :
    updateComponentWalk [⟨1, "Panel", some 0⟩] (.node 0 "root" [])
        (.node "Group" [] []) ([.node "Panel" [] []]
          ++ (.node "Panel" [("id", "root")] []) :: [])
      = applyUpdateAt [⟨1, "Panel", some 0⟩] (.node 0 "root" [])
          (.node "Panel" [("id", "root")] []) ∧
    updateComponentWalk [⟨1, "Panel", some 0⟩] (.node 0 "root" [])
        (.node "Panel" [("id", "root")] []) []
      = applyUpdateAt [⟨1, "Panel", some 0⟩] (.node 0 "root" [])
          (.node "Panel" [("id", "root")] []) ∧
    ((⟨"Panel", "root", 0⟩ : UpdAction).uid
        = getStateId (.node "Panel" [("id", "root")] []) ∧
      ∃ r, findComponentWithID (.node 0 "root" [])
          (getStateId (.node "Panel" [("id", "root")] [])) = some r ∧
        r.ident = (⟨"Panel", "root", 0⟩ : UpdAction).targetIdent ∧
        r.cid = getStateId (.node "Panel" [("id", "root")] [])) :=
  ⟨(updateComponent_nearest_mapped_ancestor [⟨1, "Panel", some 0⟩]
      (.node 0 "root" [])).1
      (.node "Group" [] []) (.node "Panel" [("id", "root")] [])
      [.node "Panel" [] []] [] (by decide) (by decide) (by decide),
    (updateComponent_nearest_mapped_ancestor [⟨1, "Panel", some 0⟩]
      (.node 0 "root" [])).2.1
      (.node "Panel" [("id", "root")] []) [] (by decide),
    (updateComponent_nearest_mapped_ancestor [⟨1, "Panel", some 0⟩]
      (.node 0 "root" [])).2.2
      (.node "Panel" [("id", "root")] []) ⟨"Panel", "root", 0⟩ rfl⟩

/-- Counterexample to C3 as stated: with the root not yet created and a
handler registered for the root state's type, delivering a mutation
notification does NOT leave everything untouched — `updateComponent` first
calls `getManagedComponent`, which lazily creates the root, and then an
update is applied to it.  Before the notification the managed component is
null; after it, the root exists and an update action was dispatched. -/
theorem valueTreePropertyChanged_creates_root_counterexample :
    (⟨0, [⟨1, "Panel", some 0⟩], .node "Panel" [("id", "root")] [], none⟩ :
      Builder).component = none ∧
    (valueTreePropertyChanged (fun _ _ _ => some (.node 99 "" []))
        ⟨0, [⟨1, "Panel", some 0⟩], .node "Panel" [("id", "root")] [], none⟩
        (.node "Panel" [("id", "root")] []) []).1.component
      = some (.node 99 "root" []) ∧
    (valueTreePropertyChanged (fun _ _ _ => some (.node 99 "" []))
        ⟨0, [⟨1, "Panel", some 0⟩], .node "Panel" [("id", "root")] [], none⟩
        (.node "Panel" [("id", "root")] []) []).2
      = some ⟨"Panel", "root", 99⟩ :=
  ⟨rfl, rfl, rfl⟩

/-- Claim C3, amended: A mutation notification delivered while the managed
root does not exist AND cannot be created (no registered handler matches the
root state's type, so `createComponent` returns null) takes no action: no
update is dispatched and the managed root remains null.  (When a handler does
match, the notification itself lazily creates the root first — see the
counterexample.) -/
theorem valueTreePropertyChanged_no_root_no_action
    (addNew : TypeHandler → VT → Option Nat → Option CompTree)
    (b : Builder) (s : VT) (anc : List VT)
    (h1 : b.component = none)
    (h2 : getHandlerForState b.types b.state = none) :
    (valueTreePropertyChanged addNew b s anc).1.component = none ∧
    (valueTreePropertyChanged addNew b s anc).2 = none := by
  unfold valueTreePropertyChanged updateComponent getManagedComponent
    createComponent
  rw [h1, h2]
  exact ⟨rfl, rfl⟩

/-- Witness for the amended C3: a builder with no registered handlers. -/
theorem valueTreePropertyChanged_no_root_no_action_witness :
    (valueTreePropertyChanged (fun _ _ _ => some (.node 99 "" []))
        ⟨0, [], .node "Panel" [] [], none⟩ (.node "Panel" [] []) []).1.component
      = none ∧
    (valueTreePropertyChanged (fun _ _ _ => some (.node 99 "" []))
        ⟨0, [], .node "Panel" [] [], none⟩ (.node "Panel" [] []) []).2
      = none :=
  valueTreePropertyChanged_no_root_no_action _
    ⟨0, [], .node "Panel" [] [], none⟩ (.node "Panel" [] []) [] rfl rfl

/-- Claim C8: `createNewComponent` always hands back an instance whose
component ID equals the state node's reserved id attribute (assigned right
after the handler's creation call); and when the handler honours its contract
(non-null result attached to the supplied parent), the helper returns a
non-null instance whose parent is exactly the supplied parent. -/
theorem createNewComponent_spec (addNew : VT → Option Nat → Option CompInst)
    (state : VT) (parent : Option Nat) :
    (∀ c, createNewComponent CompInst.withID addNew state parent = some c →
      c.cid = getStateId state) ∧
    (∀ c0, addNew state parent = some c0 → c0.parentIdent = parent →
      ∃ c, createNewComponent CompInst.withID addNew state parent = some c ∧
        c.cid = getStateId state ∧ c.parentIdent = parent) := by
  constructor
  · intro c hc
    unfold createNewComponent at hc
    cases h : addNew state parent with
    | none => rw [h] at hc; cases hc
    | some c0 =>
      rw [h] at hc
      injection hc with hc
      rw [← hc]
      rfl
  · intro c0 h hp
    refine ⟨CompInst.withID c0 (getStateId state), ?_, rfl, hp⟩
    unfold createNewComponent
    rw [h]
    rfl

/-- Witness for C8 with a contract-honouring creation function. -/
theorem createNewComponent_spec_witness :
    ((⟨7, "n", some 3⟩ : CompInst).cid
      = getStateId (.node "T" [("id", "n")] [])) ∧
    ∃ c, createNewComponent CompInst.withID (fun _ p => some ⟨7, "x", p⟩)
        (.node "T" [("id", "n")] []) (some 3) = some c ∧
      c.cid = getStateId (.node "T" [("id", "n")] []) ∧
      c.parentIdent = some 3 :=
  ⟨(createNewComponent_spec (fun _ p => some ⟨7, "x", p⟩)
      (.node "T" [("id", "n")] []) (some 3)).1 ⟨7, "n", some 3⟩ rfl,
    (createNewComponent_spec (fun _ p => some ⟨7, "x", p⟩)
      (.node "T" [("id", "n")] []) (some 3)).2 ⟨7, "x", some 3⟩ rfl rfl⟩

/-- Counterexample to C9 as stated: registering a non-null, unattached
handler whose type tag is already taken by an earlier handler satisfies the
claim's stated precondition (both assertions hold, so the flag is `true`) and
grows the registry, yet a lookup by that type tag returns the FIRST
registered handler, not the newly indexed one — so "lookup by its type tag
can find it" fails for the new handler. -/
theorem registerTypeHandler_duplicate_tag_counterexample :
    (registerTypeHandler
        ⟨5, [⟨0, "T", some 5⟩], .node "R" [] [], none⟩ (some ⟨1, "T", none⟩)).2
      = true ∧
    getNumHandlers (registerTypeHandler
        ⟨5, [⟨0, "T", some 5⟩], .node "R" [] [], none⟩
        (some ⟨1, "T", none⟩)).1 = 2 ∧
    (registerTypeHandler ⟨5, [⟨0, "T", some 5⟩], .node "R" [] [], none⟩
        (some ⟨1, "T", none⟩)).1.types.getLast? = some ⟨1, "T", some 5⟩ ∧
    getHandlerForState (registerTypeHandler
        ⟨5, [⟨0, "T", some 5⟩], .node "R" [] [], none⟩
        (some ⟨1, "T", none⟩)).1.types (.node "T" [] [])
      = some ⟨0, "T", some 5⟩ ∧
    (⟨0, "T", some 5⟩ : TypeHandler) ≠ ⟨1, "T", some 5⟩ :=
  ⟨rfl, rfl, rfl, rfl, by decide⟩

/-- Claim C9, amended: `registerTypeHandler`'s precondition assertions reject
a null handler and a handler already attached to a builder.  When the handler
is non-null, not yet attached, AND no previously registered handler shares
its type tag, the assertions hold, the registry grows by exactly one, the
handler's builder back-reference is set to this builder, and a lookup by its
type tag finds exactly the newly registered handler.  (Without the
freshness condition the earlier handler shadows the new one in lookups — see
the counterexample.) -/
theorem registerTypeHandler_spec (b : Builder) (t : TypeHandler) (s : VT)
    (hnew : t.builder = none)
    (hfresh : ∀ h ∈ b.types, h.type ≠ t.type)
    (hs : s.typ = t.type) :
    (registerTypeHandler b none).2 = false ∧
    (∀ t' : TypeHandler, t'.builder ≠ none →
      (registerTypeHandler b (some t')).2 = false) ∧
    (registerTypeHandler b (some t)).2 = true ∧
    getNumHandlers (registerTypeHandler b (some t)).1 = getNumHandlers b + 1 ∧
    getHandlerForState (registerTypeHandler b (some t)).1.types s
      = some { t with builder := some b.bid } := by
  refine ⟨rfl, ?_, ?_, ?_, ?_⟩
  · intro t' ht'
    unfold registerTypeHandler
    cases h : t'.builder with
    | none => exact absurd h ht'
    | some x => simp [h]
  · unfold registerTypeHandler
    simp [hnew]
  · unfold registerTypeHandler getNumHandlers
    simp
  · unfold registerTypeHandler getHandlerForState
    rw [List.find?_append]
    have h1 : List.find? (fun h => h.type == s.typ) b.types = none :=
      List.find?_eq_none.mpr fun x hx => by
        simp [hs, hfresh x hx]
    rw [h1]
    simp [hs]

/-- Witness for the amended C9. -/
theorem registerTypeHandler_spec_witness :
    (registerTypeHandler ⟨5, [⟨0, "S", some 5⟩], .node "R" [] [], none⟩
      none).2 = false ∧
    (∀ t' : TypeHandler, t'.builder ≠ none →
      (registerTypeHandler ⟨5, [⟨0, "S", some 5⟩], .node "R" [] [], none⟩
        (some t')).2 = false) ∧
    (registerTypeHandler ⟨5, [⟨0, "S", some 5⟩], .node "R" [] [], none⟩
      (some ⟨1, "T", none⟩)).2 = true ∧
    getNumHandlers (registerTypeHandler
        ⟨5, [⟨0, "S", some 5⟩], .node "R" [] [], none⟩
        (some ⟨1, "T", none⟩)).1
      = getNumHandlers ⟨5, [⟨0, "S", some 5⟩], .node "R" [] [], none⟩ + 1 ∧
    getHandlerForState (registerTypeHandler
        ⟨5, [⟨0, "S", some 5⟩], .node "R" [] [], none⟩
        (some ⟨1, "T", none⟩)).1.types (.node "T" [] [])
      = some ⟨1, "T", some 5⟩ :=
  registerTypeHandler_spec ⟨5, [⟨0, "S", some 5⟩], .node "R" [] [], none⟩
    ⟨1, "T", none⟩ (.node "T" [] []) rfl (by decide) rfl

/-- The fuel-indexed walk agrees with the walk once the fuel exceeds the
length of the ancestor chain: the upward recursion strictly shortens the
chain. -/
theorem updateComponentWalkFuel_eq (types : List TypeHandler) (top : CompTree) :
    ∀ (anc : List VT) (fuel : Nat) (s : VT), anc.length < fuel →
      updateComponentWalkFuel types top fuel s anc
        = updateComponentWalk types top s anc := by
  intro anc
  induction anc with
  | nil =>
    intro fuel s h
    cases fuel with
    | zero => omega
    | succ f => rfl
  | cons p rest ih =>
    intro fuel s h
    cases fuel with
    | zero => omega
    | succ f =>
      by_cases hc : ((getHandlerForState types s).isNone || getStateId s == "")
          = true
      · show (if (getHandlerForState types s).isNone || getStateId s == "" then
            updateComponentWalkFuel types top f p rest
          else applyUpdateAt types top s) = _
        rw [if_pos hc, updateComponentWalk_unmapped_cons types top s p rest hc]
        exact ih f p (by simpa using Nat.lt_of_succ_lt_succ h)
      · have hcf : ((getHandlerForState types s).isNone || getStateId s == "")
            = false := by
          cases h' : ((getHandlerForState types s).isNone || getStateId s == "")
          · rfl
          · exact absurd h' hc
        show (if (getHandlerForState types s).isNone || getStateId s == "" then
            updateComponentWalkFuel types top f p rest
          else applyUpdateAt types top s) = _
        rw [if_neg (by simp [hcf]), updateComponentWalk_mapped types top s _ hcf]

/-- Claim C10: Both recursions of the update-propagation helper are total, with
explicit bounds: the upward walk of `updateComponent` recurses only onto the
parent chain, so any fuel exceeding the chain's length computes the total
function `updateComponentWalk`; and the search `findComponentWithID` strictly
descends the finite child hierarchy, so any fuel at least the tree's height
computes the total function. -/
theorem updateComponent_terminates (types : List TypeHandler) (top : CompTree) :
    (∀ (fuel : Nat) (s : VT) (anc : List VT), anc.length < fuel →
      updateComponentWalkFuel types top fuel s anc
        = updateComponentWalk types top s anc) ∧
    (∀ (fuel : Nat) (c : CompTree) (i : String), CompTree.height c ≤ fuel →
      findComponentWithIDFuel fuel c i = findComponentWithID c i) :=
  ⟨fun fuel s anc h => updateComponentWalkFuel_eq types top anc fuel s h,
    fun fuel c i h => (findComponentWithIDFuel_eq fuel).1 c i h⟩

/-- Witness for C10 at a two-level tree and a one-step ancestor chain. -/
theorem updateComponent_terminates_witness :
    updateComponentWalkFuel [⟨1, "Panel", some 0⟩] (.node 0 "root" []) 2
        (.node "Group" [] []) [.node "Panel" [("id", "root")] []]
      = updateComponentWalk [⟨1, "Panel", some 0⟩] (.node 0 "root" [])
        (.node "Group" [] []) [.node "Panel" [("id", "root")] []] ∧
    findComponentWithIDFuel 2 (.node 0 "root" [.node 2 "x" []]) "x"
      = findComponentWithID (.node 0 "root" [.node 2 "x" []]) "x" :=
  ⟨(updateComponent_terminates [⟨1, "Panel", some 0⟩] (.node 0 "root" [])).1
      2 (.node "Group" [] []) [.node "Panel" [("id", "root")] []] (by decide),
    (updateComponent_terminates [⟨1, "Panel", some 0⟩] (.node 0 "root" [])).2
      2 (.node 0 "root" [.node 2 "x" []]) "x" (by decide)⟩

end JuceBuilder
